import Mathlib

/-!
Verification of the OS2mo-smtp data-access layer (src/mo_smtp/dataloaders.py).

Modelling choices (shallow embedding):
* Naive datetimes are modelled as integers (for example minutes since a fixed
  epoch); only their ordering matters to the code under verification.
* A MO datestring such as "2023-02-27T00:00:00+01:00" is modelled after
  parsing: the naive clock reading (the "2023-02-27T00:00:00" part, as an
  integer) together with the timezone offset (the "+01:00" part, as a number
  of minutes). This is exactly the information datetime.fromisoformat
  extracts from the string.
* Python None is modelled by Option.none; a raised exception by Except.error.
* datetime.datetime.utcnow() is modelled by an explicit parameter now : Int,
  one fixed instant for the whole call.
-/

/-- A parsed MO datestring: the naive clock reading together with the
timezone offset in minutes (for "+01:00" the offset is 60). -/
structure Datestring where
  clock : Int
  offset : Int
deriving DecidableEq

/-- Embedding of mo_datestring_to_utc (dataloaders.py lines 11-23):
datetime.fromisoformat(datestring).replace(tzinfo=None) keeps the naive
clock reading of the string and merely drops the offset; a falsy input
(None or the empty string) yields None. -/
def mo_datestring_to_utc : Option Datestring → Option Int
  | some s => some s.clock
  | none => none

/-- Modelled from the spec: "any timezone-offset-bearing timestamp
representation must be normalized to UTC before comparison" — the claimed
conversion subtracts the offset from the clock reading, yielding the same
instant expressed at UTC+0. -/
def datestring_to_utc_normalized : Option Datestring → Option Int
  | some s => some (s.clock - s.offset)
  | none => none

/-- A validity window as it appears in MO object dictionaries:
obj["validity"]["from"] and obj["validity"]["to"], each possibly None. -/
structure Validity where
  from_ : Option Datestring
  to_ : Option Datestring
deriving DecidableEq

/-- A validity-windowed object dictionary. The id field stands for all the
payload of the dictionary apart from its validity window; it lets two
records with equal windows be distinguished. -/
structure MoObj where
  id : Nat
  validity : Validity
deriving DecidableEq

/-- The three short-circuit return tests of
extract_current_or_latest_object (dataloaders.py lines 48-61): both bounds
present and now strictly between them; only from present and now past it;
only to present and now before it. -/
def shortCircuits (now : Int) (obj : MoObj) : Bool :=
  match mo_datestring_to_utc obj.validity.to_,
        mo_datestring_to_utc obj.validity.from_ with
  | some valid_to, some valid_from => now > valid_from && now < valid_to
  | none, some valid_from => now > valid_from
  | some valid_to, none => now < valid_to
  | none, none => false

/-- The candidate update step of extract_current_or_latest_object
(dataloaders.py lines 63-74): a record with a to bound replaces the
candidate only when the candidate exists, has a to bound itself, and that
bound is strictly earlier; a record without a to bound always becomes the
candidate. -/
def updateLatest (obj : MoObj) (latest_object : Option MoObj) : Option MoObj :=
  match mo_datestring_to_utc obj.validity.to_ with
  | some valid_to =>
    match latest_object with
    | some l =>
      match mo_datestring_to_utc l.validity.to_ with
      | some latest_valid_to =>
          if valid_to > latest_valid_to then some obj else some l
      | none => some l
    | none => some obj
  | none => some obj

/-- The scan loop of extract_current_or_latest_object (dataloaders.py
lines 43-77): each record is first tested for a short-circuit return and,
failing that, folded into the running candidate; after the last record the
candidate (possibly None) is returned. -/
def extractLoop (now : Int) : List MoObj → Option MoObj → Option MoObj
  | [], latest_object => latest_object
  | obj :: rest, latest_object =>
    if shortCircuits now obj then some obj
    else extractLoop now rest (updateLatest obj latest_object)

/-- Embedding of DataLoader.extract_current_or_latest_object
(dataloaders.py lines 30-77). The outer Except models the raised
exception on an empty list; the inner Option models that the Python
function returns a value that could in principle be None. -/
def extract_current_or_latest_object (now : Int) (objects : List MoObj) :
    Except String (Option MoObj) :=
  if objects.length = 1 then
    Except.ok objects.head?
  else if objects.length = 0 then
    Except.error "Objects is empty"
  else
    Except.ok (extractLoop now objects none)

/-- A record has both validity bounds present and now strictly inside the
window; this is the condition of the first short-circuit return. -/
def bracketsNow (now : Int) (obj : MoObj) : Bool :=
  match mo_datestring_to_utc obj.validity.to_,
        mo_datestring_to_utc obj.validity.from_ with
  | some valid_to, some valid_from => now > valid_from && now < valid_to
  | _, _ => false

/-- A record carries a to bound (obj["validity"]["to"] is not None). -/
def hasToBound (obj : MoObj) : Bool :=
  (mo_datestring_to_utc obj.validity.to_).isSome

/-- A dictionary of the shape \x7b "objects": [...] \x7d as it occurs, twice
nested, in the GraphQL responses used by the dataloaders. -/
structure ObjectsWrapper (α : Type) where
  objects : List α
deriving DecidableEq

/-- The response shape of the getData query of load_mo_user_data:
result["employees"]["objects"] is a list of wrappers, each with an inner
objects list of employee object dictionaries. -/
structure EmployeesResponse (α : Type) where
  employees : ObjectsWrapper (ObjectsWrapper α)
deriving DecidableEq

/-- The response shape of the getData query of load_mo_org_unit_data. -/
structure OrgUnitsResponse (α : Type) where
  org_units : ObjectsWrapper (ObjectsWrapper α)
deriving DecidableEq

/-- The response shape of the getManagerData query of
load_mo_manager_data. -/
structure ManagersResponse (α : Type) where
  managers : ObjectsWrapper (ObjectsWrapper α)
deriving DecidableEq

/-- Embedding of the response post-processing of DataLoader.load_mo_user_data
(dataloaders.py line 145): return result["employees"]["objects"][0]["objects"][0].
The outer Option models the IndexError raised when a list is empty. No
validity resolution is applied. -/
def load_mo_user_data (result : EmployeesResponse MoObj) : Option MoObj :=
  result.employees.objects.head?.bind fun w => w.objects.head?

/-- Embedding of the response post-processing of
DataLoader.load_mo_org_unit_data (dataloaders.py line 191): return
result["org_units"]["objects"][0]["objects"][0]. No validity resolution
is applied. -/
def load_mo_org_unit_data (result : OrgUnitsResponse MoObj) : Option MoObj :=
  result.org_units.objects.head?.bind fun w => w.objects.head?

/-- Embedding of the response post-processing of
DataLoader.load_mo_manager_data (dataloaders.py lines 105-107): return
extract_current_or_latest_object(result["managers"]["objects"][0]["objects"]).
The outer Option models the IndexError raised when the outer list is
empty. -/
def load_mo_manager_data (now : Int) (result : ManagersResponse MoObj) :
    Option (Except String (Option MoObj)) :=
  result.managers.objects.head?.map fun w =>
    extract_current_or_latest_object now w.objects

/-- A dictionary of the shape \x7b "current": ... \x7d, the member of the
objects list of the addresses response; the current field may be null. -/
structure CurrentWrapper (α : Type) where
  current : Option α
deriving DecidableEq

/-- The value of result["addresses"] when it is truthy: a dictionary with
an objects list of current-wrappers. -/
structure AddressesField (α : Type) where
  objects : List (CurrentWrapper α)
deriving DecidableEq

/-- The response shape of the getData query of load_mo_address_data;
none models a falsy result["addresses"] (absent or empty). -/
structure AddressesResponse (α : Type) where
  addresses : Option (AddressesField α)
deriving DecidableEq

/-- Embedding of the response post-processing of
DataLoader.load_mo_address_data (dataloaders.py lines 223-226): if
result["addresses"] is truthy return result["addresses"]["objects"][0]["current"],
otherwise return None. The outer Option models the IndexError raised when
the objects list is empty; the inner Option is the returned Python value,
None included. -/
def load_mo_address_data {α : Type} (result : AddressesResponse α) :
    Option (Option α) :=
  match result.addresses with
  | some a => a.objects.head?.map fun w => w.current
  | none => some none

/-- An org-unit dictionary as used by get_org_unit_location: its name and
its parent uuid (uuids modelled as naturals). -/
structure OrgUnitRec where
  name : String
  parent_uuid : Nat
deriving DecidableEq

/-- The while loop of DataLoader.get_org_unit_location (dataloaders.py
lines 238-242), with the gql round trip load_mo_org_unit_data modelled as
an environment env from uuids to org-unit dictionaries. The loop carries
the accumulated location string and the number of parent fetches done so
far; fuel bounds the number of iterations, none meaning the loop did not
finish within fuel iterations. -/
def orgUnitLocLoop (env : Nat → OrgUnitRec) (root_org_uuid : Nat) :
    Nat → Nat → String → Nat → Option (String × Nat)
  | 0, parent_uuid, org_unit_location, fetches =>
      if parent_uuid = root_org_uuid then some (org_unit_location, fetches) else none
  | fuel + 1, parent_uuid, org_unit_location, fetches =>
      if parent_uuid = root_org_uuid then some (org_unit_location, fetches)
      else
        orgUnitLocLoop env root_org_uuid fuel (env parent_uuid).parent_uuid
          ((env parent_uuid).name ++ " / " ++ org_unit_location) (fetches + 1)

/-- Embedding of DataLoader.get_org_unit_location (dataloaders.py lines
228-243): start from the name and parent uuid of the given unit and run
the walk; the result carries the location string and the number of parent
fetches performed. -/
def get_org_unit_location (env : Nat → OrgUnitRec) (root_org_uuid : Nat)
    (fuel : Nat) (org_unit : OrgUnitRec) : Option (String × Nat) :=
  orgUnitLocLoop env root_org_uuid fuel org_unit.parent_uuid org_unit.name 0

/-- The uuid reached after k iterated parent lookups starting from uuid p:
each lookup fetches env p and moves to its parent uuid. -/
def parentIter (env : Nat → OrgUnitRec) (p : Nat) : Nat → Nat
  | 0 => p
  | k + 1 => parentIter env (env p).parent_uuid k

/-- The names of the k ancestors fetched by the walk, in walk order
(nearest ancestor first). -/
def walkedNames (env : Nat → OrgUnitRec) (p : Nat) : Nat → List String
  | 0 => []
  | k + 1 => (env p).name :: walkedNames env (env p).parent_uuid k

/-- Prepend each ancestor name, in walk order, as "name / " in front of
the accumulated path. -/
def prependAncestors : List String → String → String
  | [], base => base
  | n :: ns, base => prependAncestors ns (n ++ " / " ++ base)

/-! Helper lemmas about the candidate update step. -/

theorem hasToBound_eq_false_iff (x : MoObj) :
    hasToBound x = false ↔ x.validity.to_ = none := by
  cases h : x.validity.to_ <;> simp [hasToBound, mo_datestring_to_utc, h]

theorem hasToBound_eq_true_iff (x : MoObj) :
    hasToBound x = true ↔ ∃ t, mo_datestring_to_utc x.validity.to_ = some t := by
  cases h : x.validity.to_ <;> simp [hasToBound, mo_datestring_to_utc, h]

theorem updateLatest_none (obj : MoObj) : updateLatest obj none = some obj := by
  cases h : mo_datestring_to_utc obj.validity.to_ <;> simp [updateLatest, h]

theorem updateLatest_eq_or (obj : MoObj) (c : Option MoObj) :
    updateLatest obj c = some obj ∨ updateLatest obj c = c := by
  cases ht : mo_datestring_to_utc obj.validity.to_ with
  | none => left; simp [updateLatest, ht]
  | some t =>
    cases c with
    | none => left; simp [updateLatest, ht]
    | some l =>
      cases hl : mo_datestring_to_utc l.validity.to_ with
      | none => right; simp [updateLatest, ht, hl]
      | some lt =>
        by_cases h : t > lt
        · left; simp [updateLatest, ht, hl, h]
        · right; simp [updateLatest, ht, hl, h]

theorem updateLatest_isSome (obj : MoObj) (c : Option MoObj) :
    (updateLatest obj c).isSome := by
  cases c with
  | none => rw [updateLatest_none]; rfl
  | some c0 => rcases updateLatest_eq_or obj (some c0) with h | h <;> rw [h] <;> rfl

theorem updateLatest_toless (obj : MoObj) (c : Option MoObj)
    (h : obj.validity.to_ = none) : updateLatest obj c = some obj := by
  simp [updateLatest, mo_datestring_to_utc, h]

theorem updateLatest_keeps_toless (obj c0 : MoObj) (t : Int)
    (hx : mo_datestring_to_utc obj.validity.to_ = some t)
    (hc : c0.validity.to_ = none) :
    updateLatest obj (some c0) = some c0 := by
  have hc2 : mo_datestring_to_utc c0.validity.to_ = none := by
    simp [mo_datestring_to_utc, hc]
  simp only [updateLatest, hx, hc2]

/-! Helper lemmas about the scan loop. -/

theorem extractLoop_isSome_of_some (now : Int) (l : List MoObj) :
    ∀ c : MoObj, (extractLoop now l (some c)).isSome := by
  induction l with
  | nil => intro c; rfl
  | cons obj rest ih =>
    intro c
    simp only [extractLoop]
    by_cases h : shortCircuits now obj = true
    · simp [h]
    · rw [if_neg h]
      rcases updateLatest_eq_or obj (some c) with h1 | h1 <;> rw [h1]
      · exact ih obj
      · exact ih c

theorem extractLoop_isSome_of_ne_nil (now : Int) (obj : MoObj) (rest : List MoObj) :
    (extractLoop now (obj :: rest) none).isSome := by
  simp only [extractLoop]
  by_cases h : shortCircuits now obj = true
  · simp [h]
  · rw [if_neg h, updateLatest_none]
    exact extractLoop_isSome_of_some now rest obj

theorem extractLoop_mem (now : Int) (l : List MoObj) :
    ∀ (c : Option MoObj) (r : MoObj), extractLoop now l c = some r → r ∈ l ∨ c = some r := by
  induction l with
  | nil => intro c r h; right; exact h
  | cons obj rest ih =>
    intro c r h
    simp only [extractLoop] at h
    by_cases hs : shortCircuits now obj = true
    · rw [if_pos hs] at h
      left
      rw [← Option.some_inj.mp h]
      exact List.mem_cons_self obj rest
    · rw [if_neg hs] at h
      rcases ih _ r h with hr | hr
      · left; exact List.mem_cons_of_mem obj hr
      · rcases updateLatest_eq_or obj c with h1 | h1
        · rw [h1] at hr
          left
          rw [← Option.some_inj.mp hr]
          exact List.mem_cons_self obj rest
        · right; rw [← h1]; exact hr

theorem getLast?_cons_of_ne_nil {α : Type} (a : α) {l : List α} (h : l ≠ []) :
    (a :: l).getLast? = l.getLast? := by
  cases l with
  | nil => exact absurd rfl h
  | cons b t => exact List.getLast?_cons_cons

/-- On a list with no short-circuiting record whose records all carry a to
bound, a candidate lacking a to bound survives the whole scan. -/
theorem extractLoop_keeps_toless (now : Int) (l : List MoObj)
    (hns : ∀ x ∈ l, shortCircuits now x = false)
    (hall : ∀ x ∈ l, hasToBound x = true) :
    ∀ c0 : MoObj, c0.validity.to_ = none → extractLoop now l (some c0) = some c0 := by
  induction l with
  | nil => intro c0 _; rfl
  | cons x l ih =>
    intro c0 hc
    simp only [extractLoop]
    rw [if_neg (by simp [hns x (List.mem_cons_self x l)])]
    obtain ⟨t, ht⟩ := (hasToBound_eq_true_iff x).mp (hall x (List.mem_cons_self x l))
    rw [updateLatest_keeps_toless x c0 t ht hc]
    exact ih (fun y hy => hns y (List.mem_cons_of_mem x hy))
      (fun y hy => hall y (List.mem_cons_of_mem x hy)) c0 hc

/-- On a list with no short-circuiting record that contains at least one
record lacking a to bound, the scan returns the last such record,
whatever the starting candidate. -/
theorem extractLoop_toless (now : Int) (l : List MoObj)
    (hns : ∀ x ∈ l, shortCircuits now x = false)
    (hex : ∃ x ∈ l, hasToBound x = false) :
    ∀ c : Option MoObj,
      extractLoop now l c = (l.filter fun x => !hasToBound x).getLast? := by
  induction l with
  | nil => simp at hex
  | cons obj rest ih =>
    intro c
    have hobj : shortCircuits now obj = false := hns obj (List.mem_cons_self obj rest)
    simp only [extractLoop]
    rw [if_neg (by simp [hobj])]
    by_cases hrest : ∃ x ∈ rest, hasToBound x = false
    · rw [ih (fun y hy => hns y (List.mem_cons_of_mem obj hy)) hrest (updateLatest obj c)]
      have hne : rest.filter (fun x => !hasToBound x) ≠ [] := by
        obtain ⟨x, hx, hxf⟩ := hrest
        intro hnil
        have := List.filter_eq_nil_iff.mp hnil x hx
        simp [hxf] at this
      by_cases hobj2 : hasToBound obj = false
      · rw [List.filter_cons_of_pos (by simp [hobj2])]
        rw [getLast?_cons_of_ne_nil obj hne]
      · rw [List.filter_cons_of_neg (by simpa using hobj2)]
    · have hobj2 : hasToBound obj = false := by
        obtain ⟨x, hx, hxf⟩ := hex
        rcases List.mem_cons.mp hx with rfl | hx2
        · exact hxf
        · exact absurd ⟨x, hx2, hxf⟩ hrest
      have hofr : rest.filter (fun x => !hasToBound x) = [] := by
        rw [List.filter_eq_nil_iff]
        intro x hx
        by_contra hcon
        exact hrest ⟨x, hx, by simpa using hcon⟩
      have hallrest : ∀ x ∈ rest, hasToBound x = true := by
        intro x hx
        by_contra hcon
        exact hrest ⟨x, hx, by simpa using hcon⟩
      rw [updateLatest_toless obj c ((hasToBound_eq_false_iff obj).mp hobj2)]
      rw [List.filter_cons_of_pos (by simp [hobj2]), hofr]
      rw [extractLoop_keeps_toless now rest
        (fun y hy => hns y (List.mem_cons_of_mem obj hy)) hallrest obj
        ((hasToBound_eq_false_iff obj).mp hobj2)]
      rfl

/-- On a list with no short-circuiting record whose records all carry a to
bound, starting from a candidate with a to bound, the scan ends on a
record whose to bound is the maximum of the candidate bound and all to
bounds in the list. -/
theorem extractLoop_allto (now : Int) (l : List MoObj)
    (hns : ∀ x ∈ l, shortCircuits now x = false)
    (hall : ∀ x ∈ l, hasToBound x = true) :
    ∀ (c0 : MoObj) (t0 : Int), mo_datestring_to_utc c0.validity.to_ = some t0 →
      ∃ (r : MoObj) (tr : Int), extractLoop now l (some c0) = some r ∧
        (r = c0 ∨ r ∈ l) ∧ mo_datestring_to_utc r.validity.to_ = some tr ∧ t0 ≤ tr ∧
        ∀ x ∈ l, ∀ tx, mo_datestring_to_utc x.validity.to_ = some tx → tx ≤ tr := by
  induction l with
  | nil =>
    intro c0 t0 h
    exact ⟨c0, t0, rfl, Or.inl rfl, h, le_refl t0, by simp⟩
  | cons x l ih =>
    intro c0 t0 hc0
    obtain ⟨tx0, htx0⟩ := (hasToBound_eq_true_iff x).mp (hall x (List.mem_cons_self x l))
    simp only [extractLoop]
    rw [if_neg (by simp [hns x (List.mem_cons_self x l)])]
    have hns2 : ∀ y ∈ l, shortCircuits now y = false :=
      fun y hy => hns y (List.mem_cons_of_mem x hy)
    have hall2 : ∀ y ∈ l, hasToBound y = true :=
      fun y hy => hall y (List.mem_cons_of_mem x hy)
    by_cases hgt : tx0 > t0
    · have hupd : updateLatest x (some c0) = some x := by
        simp only [updateLatest, htx0, hc0]
        rw [if_pos hgt]
      rw [hupd]
      obtain ⟨r, tr, h1, h2, h3, h4, h5⟩ := ih hns2 hall2 x tx0 htx0
      refine ⟨r, tr, h1, ?_, h3, by omega, ?_⟩
      · rcases h2 with rfl | h2
        · exact Or.inr (List.mem_cons_self r l)
        · exact Or.inr (List.mem_cons_of_mem x h2)
      · intro y hy ty hty
        rcases List.mem_cons.mp hy with rfl | hy2
        · rw [htx0] at hty
          have heq : tx0 = ty := Option.some_inj.mp hty
          omega
        · exact h5 y hy2 ty hty
    · have hupd : updateLatest x (some c0) = some c0 := by
        simp only [updateLatest, htx0, hc0]
        rw [if_neg hgt]
      rw [hupd]
      obtain ⟨r, tr, h1, h2, h3, h4, h5⟩ := ih hns2 hall2 c0 t0 hc0
      refine ⟨r, tr, h1, ?_, h3, h4, ?_⟩
      · rcases h2 with rfl | h2
        · exact Or.inl rfl
        · exact Or.inr (List.mem_cons_of_mem x h2)
      · intro y hy ty hty
        rcases List.mem_cons.mp hy with rfl | hy2
        · rw [htx0] at hty
          have : ty = tx0 := Option.some_inj.mp hty.symm
          omega
        · exact h5 y hy2 ty hty

/-! Helper lemmas about the org-unit location walk. -/

theorem parentIter_succ (env : Nat → OrgUnitRec) (p : Nat) (k : Nat) :
    parentIter env p (k + 1) = parentIter env (env p).parent_uuid k := rfl

/-- If the iterated parent lookup first reaches the root after k steps and
the fuel covers k iterations, the loop stops with k fetches and the
ancestor names prepended in walk order. -/
theorem orgUnitLocLoop_reaches (env : Nat → OrgUnitRec) (root : Nat) :
    ∀ (k fuel p : Nat) (acc : String) (c : Nat),
      parentIter env p k = root →
      (∀ j < k, parentIter env p j ≠ root) →
      k ≤ fuel →
      orgUnitLocLoop env root fuel p acc c =
        some (prependAncestors (walkedNames env p k) acc, c + k) := by
  intro k
  induction k with
  | zero =>
    intro fuel p acc c hreach _ _
    have hp : p = root := hreach
    cases fuel with
    | zero => simp [orgUnitLocLoop, hp, walkedNames, prependAncestors]
    | succ f => simp [orgUnitLocLoop, hp, walkedNames, prependAncestors]
  | succ k ih =>
    intro fuel p acc c hreach hfirst hfuel
    have hp : p ≠ root := hfirst 0 (Nat.succ_pos k)
    cases fuel with
    | zero => exact absurd hfuel (by omega)
    | succ f =>
      simp only [orgUnitLocLoop]
      rw [if_neg hp]
      rw [ih f (env p).parent_uuid ((env p).name ++ " / " ++ acc) (c + 1)
        hreach (fun j hj => hfirst (j + 1) (by omega)) (by omega)]
      simp only [walkedNames, prependAncestors]
      have hc : c + 1 + k = c + (k + 1) := by omega
      rw [hc]

/-- The loop finishes within the given fuel exactly when some iterated
parent lookup within the fuel bound reaches the root. -/
theorem orgUnitLocLoop_isSome_iff (env : Nat → OrgUnitRec) (root : Nat) :
    ∀ (fuel p : Nat) (acc : String) (c : Nat),
      (orgUnitLocLoop env root fuel p acc c).isSome = true ↔
        ∃ j ≤ fuel, parentIter env p j = root := by
  intro fuel
  induction fuel with
  | zero =>
    intro p acc c
    constructor
    · intro h
      by_cases hp : p = root
      · exact ⟨0, le_refl 0, hp⟩
      · simp [orgUnitLocLoop, hp] at h
    · rintro ⟨j, hj, hreach⟩
      have hj0 : j = 0 := by omega
      subst hj0
      have hp : p = root := hreach
      simp [orgUnitLocLoop, hp]
  | succ f ih =>
    intro p acc c
    by_cases hp : p = root
    · simp only [orgUnitLocLoop]
      rw [if_pos hp]
      simp only [Option.isSome_some, true_iff]
      exact ⟨0, by omega, hp⟩
    · simp only [orgUnitLocLoop]
      rw [if_neg hp]
      rw [ih (env p).parent_uuid ((env p).name ++ " / " ++ acc) (c + 1)]
      constructor
      · rintro ⟨j, hj, hreach⟩
        exact ⟨j + 1, by omega, hreach⟩
      · rintro ⟨j, hj, hreach⟩
        cases j with
        | zero => exact absurd hreach hp
        | succ j => exact ⟨j, by omega, hreach⟩

/-! Lemmas connecting the short-circuit tests. -/

theorem shortCircuits_of_bracketsNow (now : Int) (x : MoObj)
    (h : bracketsNow now x = true) : shortCircuits now x = true := by
  cases ht : mo_datestring_to_utc x.validity.to_ <;>
    cases hf : mo_datestring_to_utc x.validity.from_ <;>
      simp_all [bracketsNow, shortCircuits, ht, hf]

theorem extractLoop_first_short_circuit (now : Int) (r : MoObj) (post : List MoObj)
    (hr : shortCircuits now r = true) :
    ∀ (pre : List MoObj) (c : Option MoObj), (∀ x ∈ pre, shortCircuits now x = false) →
      extractLoop now (pre ++ r :: post) c = some r := by
  intro pre
  induction pre with
  | nil =>
    intro c _
    simp only [List.nil_append, extractLoop]
    rw [if_pos hr]
  | cons x pre ih =>
    intro c hpre
    simp only [List.cons_append, extractLoop]
    rw [if_neg (by simp [hpre x (List.mem_cons_self x pre)])]
    exact ih _ (fun y hy => hpre y (List.mem_cons_of_mem x hy))

/-- C4: for every one-element record list, extract_current_or_latest_object
returns that single record unconditionally, whatever its validity window,
even if the window has already expired. -/
theorem extract_singleton_returns_it (now : Int) (r : MoObj) :
    extract_current_or_latest_object now [r] = Except.ok (some r) := rfl

/-- C3: extract_current_or_latest_object raises the empty-input error
exactly when its input list is empty, and on every non-empty input it
returns a record that is an element of the input list, never None. -/
theorem extract_error_iff_empty (now : Int) (objects : List MoObj) :
    (extract_current_or_latest_object now objects = Except.error "Objects is empty" ↔
      objects = []) ∧
    (objects ≠ [] →
      ∃ r ∈ objects, extract_current_or_latest_object now objects = Except.ok (some r)) := by
  cases objects with
  | nil => simp [extract_current_or_latest_object]
  | cons a rest =>
    cases rest with
    | nil =>
      constructor
      · simp [extract_current_or_latest_object]
      · intro _
        exact ⟨a, List.mem_cons_self a [], rfl⟩
    | cons b rest2 =>
      have hext : extract_current_or_latest_object now (a :: b :: rest2) =
          Except.ok (extractLoop now (a :: b :: rest2) none) := by
        have h1 : (a :: b :: rest2).length ≠ 1 := by simp
        have h0 : (a :: b :: rest2).length ≠ 0 := by simp
        simp [extract_current_or_latest_object, h1, h0]
      constructor
      · rw [hext]; simp
      · intro _
        have hsome := extractLoop_isSome_of_ne_nil now a (b :: rest2)
        obtain ⟨r, hr⟩ := Option.isSome_iff_exists.mp hsome
        rcases extractLoop_mem now (a :: b :: rest2) none r hr with hmem | hc
        · exact ⟨r, hmem, by rw [hext, hr]⟩
        · simp at hc

/-- Witness for C3: on a concrete two-record input the resolver returns
one of the records. -/
theorem extract_error_iff_empty_witness :
    ∃ r ∈ [(⟨0, ⟨none, none⟩⟩ : MoObj), ⟨1, ⟨none, none⟩⟩],
      extract_current_or_latest_object 0 [(⟨0, ⟨none, none⟩⟩ : MoObj), ⟨1, ⟨none, none⟩⟩] =
        Except.ok (some r) :=
  (extract_error_iff_empty 0 [(⟨0, ⟨none, none⟩⟩ : MoObj), ⟨1, ⟨none, none⟩⟩]).2 (by simp)

/-- Counterexample to C1: in the two-record list below exactly one record
(the second) has both bounds present with from < now < to, yet the
resolver returns the first record, because a record with only a from
bound that has started short-circuits first. -/
theorem extract_bracketing_not_returned :
    (([(⟨0, ⟨some ⟨1, 0⟩, none⟩⟩ : MoObj), ⟨1, ⟨some ⟨1, 0⟩, some ⟨9, 0⟩⟩⟩].filter
        fun x => bracketsNow 5 x) = [⟨1, ⟨some ⟨1, 0⟩, some ⟨9, 0⟩⟩⟩]) ∧
    extract_current_or_latest_object 5
        [(⟨0, ⟨some ⟨1, 0⟩, none⟩⟩ : MoObj), ⟨1, ⟨some ⟨1, 0⟩, some ⟨9, 0⟩⟩⟩] =
      Except.ok (some ⟨0, ⟨some ⟨1, 0⟩, none⟩⟩) ∧
    (⟨0, ⟨some ⟨1, 0⟩, none⟩⟩ : MoObj) ≠ ⟨1, ⟨some ⟨1, 0⟩, some ⟨9, 0⟩⟩⟩ :=
  ⟨by decide, by rfl, by decide⟩

/-- C1 (amended): if exactly one record has both bounds present with
from < now < to, the resolver returns it provided no record placed before
it short-circuits itself (a record with only a from bound already started,
or only a to bound not yet reached); records with both bounds present or
with neither bound never pre-empt it. -/
theorem extract_unique_bracketing (now : Int) (pre post : List MoObj) (r : MoObj)
    (hr : bracketsNow now r = true)
    (hpre : ∀ x ∈ pre, shortCircuits now x = false)
    (huniq : ∀ x ∈ pre ++ post, bracketsNow now x = false) :
    extract_current_or_latest_object now (pre ++ r :: post) = Except.ok (some r) := by
  by_cases hlen : (pre ++ r :: post).length = 1
  · have hp : pre.length = 0 ∧ post.length = 0 := by
      rw [List.length_append, List.length_cons] at hlen
      omega
    have hpre_nil := List.length_eq_zero.mp hp.1
    have hpost_nil := List.length_eq_zero.mp hp.2
    subst hpre_nil
    subst hpost_nil
    simp [extract_current_or_latest_object]
  · have h0 : (pre ++ r :: post).length ≠ 0 := by simp
    simp only [extract_current_or_latest_object]
    rw [if_neg hlen, if_neg h0]
    rw [extractLoop_first_short_circuit now r post
      (shortCircuits_of_bracketsNow now r hr) pre none hpre]

/-- Witness for C1 (amended): a currently valid record between two expired
records is returned. -/
theorem extract_unique_bracketing_witness :
    extract_current_or_latest_object 5
        ([(⟨0, ⟨some ⟨0, 0⟩, some ⟨2, 0⟩⟩⟩ : MoObj)] ++
          (⟨1, ⟨some ⟨1, 0⟩, some ⟨9, 0⟩⟩⟩ : MoObj) :: [⟨2, ⟨some ⟨0, 0⟩, some ⟨3, 0⟩⟩⟩]) =
      Except.ok (some ⟨1, ⟨some ⟨1, 0⟩, some ⟨9, 0⟩⟩⟩) :=
  extract_unique_bracketing 5 [⟨0, ⟨some ⟨0, 0⟩, some ⟨2, 0⟩⟩⟩]
    [⟨2, ⟨some ⟨0, 0⟩, some ⟨3, 0⟩⟩⟩] ⟨1, ⟨some ⟨1, 0⟩, some ⟨9, 0⟩⟩⟩
    (by decide) (by decide) (by decide)

/-- C2: on a multi-record list where no record short-circuits, the
resolver returns an element of the list; it is a record lacking a to
bound whenever one exists, and otherwise a record whose to bound is the
latest among all records. -/
theorem extract_no_short_circuit_latest (now : Int) (objects : List MoObj)
    (hlen : 2 ≤ objects.length)
    (hns : ∀ x ∈ objects, shortCircuits now x = false) :
    ∃ r ∈ objects, extract_current_or_latest_object now objects = Except.ok (some r) ∧
      ((∃ x ∈ objects, hasToBound x = false) → hasToBound r = false) ∧
      ((∀ x ∈ objects, hasToBound x = true) →
        ∃ tr, mo_datestring_to_utc r.validity.to_ = some tr ∧
          ∀ x ∈ objects, ∀ tx, mo_datestring_to_utc x.validity.to_ = some tx → tx ≤ tr) := by
  have h1 : objects.length ≠ 1 := by omega
  have h0 : objects.length ≠ 0 := by omega
  have hext : extract_current_or_latest_object now objects =
      Except.ok (extractLoop now objects none) := by
    simp [extract_current_or_latest_object, h1, h0]
  by_cases hex : ∃ x ∈ objects, hasToBound x = false
  · have hloop := extractLoop_toless now objects hns hex none
    have hne : objects.filter (fun x => !hasToBound x) ≠ [] := by
      obtain ⟨x, hx, hxf⟩ := hex
      intro hnil
      have := List.filter_eq_nil_iff.mp hnil x hx
      simp [hxf] at this
    have hlast : (objects.filter fun x => !hasToBound x).getLast? =
        some ((objects.filter fun x => !hasToBound x).getLast hne) :=
      List.getLast?_eq_getLast_of_ne_nil hne
    have hmemf : (objects.filter fun x => !hasToBound x).getLast hne ∈
        objects.filter fun x => !hasToBound x := List.getLast_mem hne
    refine ⟨(objects.filter fun x => !hasToBound x).getLast hne,
      List.mem_of_mem_filter hmemf, ?_, ?_, ?_⟩
    · rw [hext, hloop, hlast]
    · intro _
      have := List.of_mem_filter hmemf
      simpa using this
    · intro hall
      exfalso
      obtain ⟨x, hx, hxf⟩ := hex
      rw [hall x hx] at hxf
      simp at hxf
  · have hall : ∀ x ∈ objects, hasToBound x = true := by
      intro x hx
      by_contra hcon
      exact hex ⟨x, hx, by simpa using hcon⟩
    cases objects with
    | nil => simp at h0
    | cons obj rest =>
      have hobj : shortCircuits now obj = false := hns obj (List.mem_cons_self obj rest)
      obtain ⟨t0, ht0⟩ :=
        (hasToBound_eq_true_iff obj).mp (hall obj (List.mem_cons_self obj rest))
      have hstep : extractLoop now (obj :: rest) none = extractLoop now rest (some obj) := by
        simp only [extractLoop]
        rw [if_neg (by simp [hobj]), updateLatest_none]
      obtain ⟨r, tr, hr1, hr2, hr3, hr4, hr5⟩ :=
        extractLoop_allto now rest (fun y hy => hns y (List.mem_cons_of_mem obj hy))
          (fun y hy => hall y (List.mem_cons_of_mem obj hy)) obj t0 ht0
      refine ⟨r, ?_, ?_, ?_, ?_⟩
      · rcases hr2 with rfl | hr2
        · exact List.mem_cons_self r rest
        · exact List.mem_cons_of_mem obj hr2
      · rw [hext, hstep, hr1]
      · intro hex2
        exact absurd hex2 hex
      · intro _
        refine ⟨tr, hr3, ?_⟩
        intro x hx tx htx
        rcases List.mem_cons.mp hx with rfl | hx2
        · rw [ht0] at htx
          have heq : t0 = tx := Option.some_inj.mp htx
          omega
        · exact hr5 x hx2 tx htx

/-- Witness for C2: with two expired records the one with the later to
bound is returned. -/
theorem extract_no_short_circuit_latest_witness :
    ∃ r ∈ [(⟨0, ⟨some ⟨0, 0⟩, some ⟨2, 0⟩⟩⟩ : MoObj), ⟨1, ⟨some ⟨0, 0⟩, some ⟨3, 0⟩⟩⟩],
      extract_current_or_latest_object 5
          [(⟨0, ⟨some ⟨0, 0⟩, some ⟨2, 0⟩⟩⟩ : MoObj), ⟨1, ⟨some ⟨0, 0⟩, some ⟨3, 0⟩⟩⟩] =
        Except.ok (some r) ∧
      ((∃ x ∈ [(⟨0, ⟨some ⟨0, 0⟩, some ⟨2, 0⟩⟩⟩ : MoObj), ⟨1, ⟨some ⟨0, 0⟩, some ⟨3, 0⟩⟩⟩],
          hasToBound x = false) → hasToBound r = false) ∧
      ((∀ x ∈ [(⟨0, ⟨some ⟨0, 0⟩, some ⟨2, 0⟩⟩⟩ : MoObj), ⟨1, ⟨some ⟨0, 0⟩, some ⟨3, 0⟩⟩⟩],
          hasToBound x = true) →
        ∃ tr, mo_datestring_to_utc r.validity.to_ = some tr ∧
          ∀ x ∈ [(⟨0, ⟨some ⟨0, 0⟩, some ⟨2, 0⟩⟩⟩ : MoObj), ⟨1, ⟨some ⟨0, 0⟩, some ⟨3, 0⟩⟩⟩],
            ∀ tx, mo_datestring_to_utc x.validity.to_ = some tx → tx ≤ tr) :=
  extract_no_short_circuit_latest 5
    [(⟨0, ⟨some ⟨0, 0⟩, some ⟨2, 0⟩⟩⟩ : MoObj), ⟨1, ⟨some ⟨0, 0⟩, some ⟨3, 0⟩⟩⟩]
    (by simp) (by decide)

/-- C10: on a multi-record list where no record short-circuits and at
least two records lack a to bound, the resolver returns the last record
lacking a to bound in iteration order. -/
theorem extract_last_toless (now : Int) (objects : List MoObj)
    (hlen : 2 ≤ objects.length)
    (hns : ∀ x ∈ objects, shortCircuits now x = false)
    (h2 : 2 ≤ (objects.filter fun x => !hasToBound x).length) :
    extract_current_or_latest_object now objects =
      Except.ok ((objects.filter fun x => !hasToBound x).getLast?) := by
  have h1 : objects.length ≠ 1 := by omega
  have h0 : objects.length ≠ 0 := by omega
  have hex : ∃ x ∈ objects, hasToBound x = false := by
    rcases hfil : objects.filter (fun x => !hasToBound x) with _ | ⟨x, rest⟩
    · rw [hfil] at h2
      simp at h2
    · have hx : x ∈ objects.filter fun x => !hasToBound x := by
        rw [hfil]
        exact List.mem_cons_self x rest
      exact ⟨x, List.mem_of_mem_filter hx, by simpa using List.of_mem_filter hx⟩
  simp [extract_current_or_latest_object, h1, h0,
    extractLoop_toless now objects hns hex none]

/-- Witness for C10: among two records without a to bound, the later one
in iteration order is returned. -/
theorem extract_last_toless_witness :
    extract_current_or_latest_object 5
        [(⟨0, ⟨some ⟨0, 0⟩, some ⟨2, 0⟩⟩⟩ : MoObj), ⟨1, ⟨some ⟨10, 0⟩, none⟩⟩,
          ⟨2, ⟨some ⟨11, 0⟩, none⟩⟩] =
      Except.ok (([(⟨0, ⟨some ⟨0, 0⟩, some ⟨2, 0⟩⟩⟩ : MoObj), ⟨1, ⟨some ⟨10, 0⟩, none⟩⟩,
          ⟨2, ⟨some ⟨11, 0⟩, none⟩⟩].filter fun x => !hasToBound x).getLast?) :=
  extract_last_toless 5
    [(⟨0, ⟨some ⟨0, 0⟩, some ⟨2, 0⟩⟩⟩ : MoObj), ⟨1, ⟨some ⟨10, 0⟩, none⟩⟩,
      ⟨2, ⟨some ⟨11, 0⟩, none⟩⟩]
    (by simp) (by decide) (by decide)

/-- Counterexample to C5: a concrete employees response whose first object
is not the record the validity resolution would select; load_mo_user_data
returns that first object, so the employee fetch does not apply the
resolution. -/
theorem load_mo_user_data_not_resolved :
    load_mo_user_data
        ⟨⟨[⟨[(⟨0, ⟨some ⟨0, 0⟩, some ⟨2, 0⟩⟩⟩ : MoObj), ⟨1, ⟨some ⟨1, 0⟩, some ⟨9, 0⟩⟩⟩]⟩]⟩⟩ =
      some ⟨0, ⟨some ⟨0, 0⟩, some ⟨2, 0⟩⟩⟩ ∧
    extract_current_or_latest_object 5
        [(⟨0, ⟨some ⟨0, 0⟩, some ⟨2, 0⟩⟩⟩ : MoObj), ⟨1, ⟨some ⟨1, 0⟩, some ⟨9, 0⟩⟩⟩] =
      Except.ok (some ⟨1, ⟨some ⟨1, 0⟩, some ⟨9, 0⟩⟩⟩) ∧
    (⟨0, ⟨some ⟨0, 0⟩, some ⟨2, 0⟩⟩⟩ : MoObj) ≠ ⟨1, ⟨some ⟨1, 0⟩, some ⟨9, 0⟩⟩⟩ :=
  ⟨rfl, rfl, by decide⟩

/-- C5 (amended): only the manager fetch applies the validity resolution
to the validity-windowed objects of its response; the employee and
org-unit fetches return the first object of the first wrapper of the
response unresolved. -/
theorem loaders_resolution (now : Int) (mr : ManagersResponse MoObj)
    (er : EmployeesResponse MoObj) (ur : OrgUnitsResponse MoObj)
    (wm we wu : ObjectsWrapper MoObj)
    (restm reste restu : List (ObjectsWrapper MoObj))
    (hm : mr.managers.objects = wm :: restm)
    (he : er.employees.objects = we :: reste)
    (hu : ur.org_units.objects = wu :: restu) :
    load_mo_manager_data now mr =
      some (extract_current_or_latest_object now wm.objects) ∧
    load_mo_user_data er = we.objects.head? ∧
    load_mo_org_unit_data ur = wu.objects.head? := by
  refine ⟨?_, ?_, ?_⟩
  · simp [load_mo_manager_data, hm]
  · simp [load_mo_user_data, he]
  · simp [load_mo_org_unit_data, hu]

/-- Witness for C5 (amended) at concrete one-wrapper responses. -/
theorem loaders_resolution_witness :
    load_mo_manager_data 0 ⟨⟨[⟨[(⟨0, ⟨none, none⟩⟩ : MoObj)]⟩]⟩⟩ =
      some (extract_current_or_latest_object 0 [(⟨0, ⟨none, none⟩⟩ : MoObj)]) ∧
    load_mo_user_data ⟨⟨[⟨[(⟨1, ⟨none, none⟩⟩ : MoObj)]⟩]⟩⟩ =
      (⟨[(⟨1, ⟨none, none⟩⟩ : MoObj)]⟩ : ObjectsWrapper MoObj).objects.head? ∧
    load_mo_org_unit_data ⟨⟨[⟨[(⟨2, ⟨none, none⟩⟩ : MoObj)]⟩]⟩⟩ =
      (⟨[(⟨2, ⟨none, none⟩⟩ : MoObj)]⟩ : ObjectsWrapper MoObj).objects.head? :=
  loaders_resolution 0 ⟨⟨[⟨[(⟨0, ⟨none, none⟩⟩ : MoObj)]⟩]⟩⟩
    ⟨⟨[⟨[(⟨1, ⟨none, none⟩⟩ : MoObj)]⟩]⟩⟩ ⟨⟨[⟨[(⟨2, ⟨none, none⟩⟩ : MoObj)]⟩]⟩⟩
    ⟨[(⟨0, ⟨none, none⟩⟩ : MoObj)]⟩ ⟨[(⟨1, ⟨none, none⟩⟩ : MoObj)]⟩
    ⟨[(⟨2, ⟨none, none⟩⟩ : MoObj)]⟩ [] [] [] rfl rfl rfl

/-- Counterexample to C6: for the datestring "2023-02-27T00:00:00+01:00",
modelled with clock reading 0 (minutes measured from 2023-02-27T00:00)
and offset 60, the value used in comparisons keeps the clock reading 0;
the UTC instant is -60 (2023-02-26T23:00), so the offset is discarded,
not applied. -/
theorem mo_datestring_to_utc_discards_offset :
    mo_datestring_to_utc (some ⟨0, 60⟩) = some 0 ∧
    datestring_to_utc_normalized (some ⟨0, 60⟩) = some (-60) ∧
    mo_datestring_to_utc (some ⟨0, 60⟩) ≠ datestring_to_utc_normalized (some ⟨0, 60⟩) :=
  ⟨rfl, rfl, by decide⟩

/-- C6 (amended): the datetime value used in validity comparisons equals
the local clock reading of the timestamp with the offset merely dropped;
whenever the offset is nonzero this differs from the instant converted to
UTC. -/
theorem mo_datestring_to_utc_keeps_clock (s : Datestring) :
    mo_datestring_to_utc (some s) = some s.clock ∧
    (s.offset ≠ 0 →
      mo_datestring_to_utc (some s) ≠ datestring_to_utc_normalized (some s)) := by
  refine ⟨rfl, ?_⟩
  intro hoff
  simp only [mo_datestring_to_utc, datestring_to_utc_normalized, ne_eq,
    Option.some_inj]
  omega

/-- Witness for C6 (amended) at the example datestring. -/
theorem mo_datestring_to_utc_keeps_clock_witness :
    mo_datestring_to_utc (some ⟨0, 60⟩) = some (0 : Int) ∧
    mo_datestring_to_utc (some (⟨0, 60⟩ : Datestring)) ≠
      datestring_to_utc_normalized (some ⟨0, 60⟩) :=
  ⟨(mo_datestring_to_utc_keeps_clock ⟨0, 60⟩).1,
    (mo_datestring_to_utc_keeps_clock ⟨0, 60⟩).2 (by decide)⟩

/-- C7: when the iterated parent lookup first reaches the root after
k fetches within the fuel bound, the walk returns the unit name with each
walked ancestor name prepended as "name / " in walk order, the root
excluded, and performs exactly k parent fetches; for k = 0 this is the
unit name alone with zero fetches. -/
theorem get_org_unit_location_path (env : Nat → OrgUnitRec) (root : Nat)
    (fuel k : Nat) (org_unit : OrgUnitRec)
    (hreach : parentIter env org_unit.parent_uuid k = root)
    (hfirst : ∀ j < k, parentIter env org_unit.parent_uuid j ≠ root)
    (hfuel : k ≤ fuel) :
    get_org_unit_location env root fuel org_unit =
      some (prependAncestors (walkedNames env org_unit.parent_uuid k) org_unit.name, k) := by
  have h := orgUnitLocLoop_reaches env root k fuel org_unit.parent_uuid
    org_unit.name 0 hreach hfirst hfuel
  simpa [get_org_unit_location] using h

/-- Witness for C7: a unit one level below a child of the root yields the
parent name prepended once, with one fetch. -/
theorem get_org_unit_location_path_witness :
    get_org_unit_location
        (fun p => if p = 1 then ⟨"org1", 0⟩ else ⟨"other", 0⟩) 0 5 ⟨"org2", 1⟩ =
      some (prependAncestors
        (walkedNames (fun p => if p = 1 then ⟨"org1", 0⟩ else ⟨"other", 0⟩) 1 1) "org2", 1) :=
  get_org_unit_location_path (fun p => if p = 1 then ⟨"org1", 0⟩ else ⟨"other", 0⟩)
    0 5 1 ⟨"org2", 1⟩ (by decide) (by decide) (by decide)

/-- C8: the walk finishes within some fuel bound exactly when iterated
parent lookup from the starting unit reaches the root identifier; when
the parent chain never passes through the root identifier, as in a
cyclic hierarchy, no fuel bound makes the walk finish, modelling
non-termination. -/
theorem get_org_unit_location_terminates_iff (env : Nat → OrgUnitRec) (root : Nat)
    (org_unit : OrgUnitRec) :
    ((∃ fuel, (get_org_unit_location env root fuel org_unit).isSome = true) ↔
      (∃ k, parentIter env org_unit.parent_uuid k = root)) ∧
    ((∀ k, parentIter env org_unit.parent_uuid k ≠ root) →
      ∀ fuel, get_org_unit_location env root fuel org_unit = none) := by
  constructor
  · constructor
    · rintro ⟨fuel, hf⟩
      obtain ⟨j, _, hj⟩ := (orgUnitLocLoop_isSome_iff env root fuel
        org_unit.parent_uuid org_unit.name 0).mp hf
      exact ⟨j, hj⟩
    · rintro ⟨k, hk⟩
      exact ⟨k, (orgUnitLocLoop_isSome_iff env root k
        org_unit.parent_uuid org_unit.name 0).mpr ⟨k, le_refl k, hk⟩⟩
  · intro hnone fuel
    rcases h : get_org_unit_location env root fuel org_unit with _ | v
    · rfl
    · exfalso
      have hs : (get_org_unit_location env root fuel org_unit).isSome = true := by
        rw [h]
        rfl
      obtain ⟨j, _, hj⟩ := (orgUnitLocLoop_isSome_iff env root fuel
        org_unit.parent_uuid org_unit.name 0).mp hs
      exact hnone j hj

/-- A malformed org hierarchy: units 1 and 2 are parents of each other, so
the parent chain from unit 1 cycles without reaching the root uuid 0. -/
def cycEnv : Nat → OrgUnitRec := fun p =>
  if p = 1 then ⟨"a", 2⟩ else if p = 2 then ⟨"b", 1⟩ else ⟨"r", 0⟩

theorem cycEnv_iter_in_cycle : ∀ (k p : Nat), p = 1 ∨ p = 2 →
    parentIter cycEnv p k = 1 ∨ parentIter cycEnv p k = 2 := by
  intro k
  induction k with
  | zero => intro p hp; exact hp
  | succ k ih =>
    intro p hp
    rcases hp with rfl | rfl
    · rw [parentIter_succ]
      exact ih (cycEnv 1).parent_uuid (Or.inr rfl)
    · rw [parentIter_succ]
      exact ih (cycEnv 2).parent_uuid (Or.inl rfl)

/-- Witness for C8: on the cyclic hierarchy the walk yields no result even
with a large fuel bound. -/
theorem get_org_unit_location_terminates_iff_witness :
    get_org_unit_location cycEnv 0 100 ⟨"u", 1⟩ = none :=
  (get_org_unit_location_terminates_iff cycEnv 0 ⟨"u", 1⟩).2
    (fun k hk => by
      have hk2 : parentIter cycEnv 1 k = 0 := hk
      rcases cycEnv_iter_in_cycle k 1 (Or.inl rfl) with h | h <;> omega) 100

/-- C9: when the address lookup response is falsy (contains no address
record), load_mo_address_data returns None and raises no error; when a
first record is present its current field is returned as-is. -/
theorem load_mo_address_data_absent_none {α : Type} (result : AddressesResponse α) :
    (result.addresses = none → load_mo_address_data result = some none) ∧
    (∀ (a : AddressesField α) (w : CurrentWrapper α) (rest : List (CurrentWrapper α)),
      result.addresses = some a → a.objects = w :: rest →
        load_mo_address_data result = some w.current) := by
  constructor
  · intro h
    simp [load_mo_address_data, h]
  · intro a w rest ha hw
    simp [load_mo_address_data, ha, hw]

/-- Witness for C9: an absent addresses field yields None; a present
record yields its current field. -/
theorem load_mo_address_data_absent_none_witness :
    load_mo_address_data (⟨none⟩ : AddressesResponse Nat) = some none ∧
    load_mo_address_data (⟨some ⟨[⟨some 7⟩]⟩⟩ : AddressesResponse Nat) = some (some 7) :=
  ⟨(load_mo_address_data_absent_none (⟨none⟩ : AddressesResponse Nat)).1 rfl,
    (load_mo_address_data_absent_none (⟨some ⟨[⟨some 7⟩]⟩⟩ : AddressesResponse Nat)).2
      ⟨[⟨some 7⟩]⟩ ⟨some 7⟩ [] rfl rfl⟩
